import Mathlib

/-!
Verification of the table-load orchestration engine of the `etl.py` batch
pipeline.  Pure data-shaping code (encoding-resilient CSV reading, schema
normalization, per-table validation, type coercion, query-shape selection,
bulk/row loading, transactional logging) is shallowly embedded as Lean
functions; the relational store executing the generated statements is an
external collaborator and is modelled from the spec where noted.
-/

set_option autoImplicit false

namespace Etl

/-- A Python-level cell value as it occurs in the pandas `DataFrame`:
`na` stands for the null family (`None`, `NaN`, `NaT`), `timestamp` for
`pd.Timestamp`/`np.datetime64` (a calendar date, abstracted as a `Nat` code),
`npInt`/`npFloat` for numpy integer/floating scalars (a float is abstracted by
an opaque pair of integers; no float arithmetic occurs in the program),
`npBool` for `np.bool_`, and `pyStr` for a Python string. -/
inductive PyVal where
  | na
  | timestamp (d : Nat)
  | npInt (n : Int)
  | npFloat (m : Int) (e : Nat)
  | npBool (b : Bool)
  | pyStr (s : String)
deriving DecidableEq, Repr

/-- A database-native value, one of the six kinds produced by
`convert_value` (line 49-61 of `etl.py`). -/
inductive Value where
  | null
  | date (d : Nat)
  | int (n : Int)
  | float (m : Int) (e : Nat)
  | bool (b : Bool)
  | str (s : String)
deriving DecidableEq, Repr

/-- `pd.isnull` on a cell: true exactly for the null family. -/
def pd_isnull : PyVal → Bool
  | .na => true
  | _ => false

/-- Python `str.lower` (ASCII case folding, as used on column names). -/
def pyLower (s : String) : String :=
  String.mk (s.data.map Char.toLower)

/-- Python `str.upper`. -/
def pyUpper (s : String) : String :=
  String.mk (s.data.map Char.toUpper)

/-- Drop whitespace from both ends of a character list. -/
def stripChars (s : List Char) : List Char :=
  (((s.dropWhile Char.isWhitespace).reverse).dropWhile Char.isWhitespace).reverse

/-- Python `str.strip`. -/
def pyStrip (s : String) : String :=
  String.mk (stripChars s.data)

/-- Python `''.join(filter(str.isalpha, s))`. -/
def filterAlpha (s : String) : String :=
  String.mk (s.data.filter Char.isAlpha)

/-- Whether `pat` occurs contiguously at the start of `s`. -/
def startsWithCS : List Char → List Char → Bool
  | [], _ => true
  | _ :: _, [] => false
  | p :: ps, c :: cs => p == c && startsWithCS ps cs

/-- Whether `pat` occurs contiguously anywhere in `s`
(Python's `pat in s` on strings). -/
def hasInfixCS (pat : List Char) : List Char → Bool
  | [] => pat.isEmpty
  | c :: cs => startsWithCS pat (c :: cs) || hasInfixCS pat cs

/-- The date-column name heuristic `"date" in col.lower()` of `parse_dates`
and of the `dropna` subset in `load_table`. -/
def isDateCol (c : String) : Bool :=
  hasInfixCS "date".data (pyLower c).data

/-- Python `str(v)` on a cell value (only its alphabetic content ever
matters downstream; numeric renderings contain no alphabetic characters
beyond the float exponent marker, as in Python). -/
def pyStrOf : PyVal → String
  | .na => "nan"
  | .timestamp d => toString d
  | .npInt n => toString n
  | .npFloat m e => toString m ++ "e" ++ toString e
  | .npBool b => if b then "True" else "False"
  | .pyStr s => s

/-- `convert_value` (lines 49-61): coerce a cell to a database-native value,
checking in order: null-like, date-like, integer, float, boolean, and
falling back to the trimmed string rendering. -/
def convert_value (v : PyVal) : Value :=
  if pd_isnull v then Value.null
  else
    match v with
    | .timestamp d => Value.date d
    | .npInt n => Value.int n
    | .npFloat m e => Value.float m e
    | .npBool b => Value.bool b
    | .na => Value.null
    | .pyStr s => Value.str (pyStrip s)

/-- A tabular dataset: named columns and index-tagged rows (the pandas
index label is carried so that dropped rows keep their original file
position, as `df.iterrows` and `df.dropna` do). -/
structure Df where
  cols : List String
  rows : List (Nat × List PyVal)
deriving DecidableEq, Repr

/-- Tag each row with its positional index starting at `n`
(the pandas default `RangeIndex`). -/
def enumFrom {α : Type} (n : Nat) : List α → List (Nat × α)
  | [] => []
  | x :: xs => (n, x) :: enumFrom (n + 1) xs

/-- What `pd.read_csv(csv_path, encoding=enc, sep=';')` does for one file
under one encoding: a successful parse, a `UnicodeDecodeError`, or any other
raised error. -/
inductive ParseOutcome where
  | ok (cols : List String) (rows : List (List PyVal))
  | decodeError
  | raised (msg : String)
deriving DecidableEq, Repr

/-- The fixed encoding priority list of `read_csv_safe` (line 40). -/
def encodings : List String := ["utf-8", "cp1251", "ISO-8859-1"]

/-- Message raised by `read_csv_safe` when every encoding fails to decode. -/
def noEncodingMsg : String := "❌ Не удалось прочитать CSV в доступных кодировках."

/-- Loop body of `read_csv_safe`: try each encoding in order; only a
`UnicodeDecodeError` is caught and moves on to the next encoding; any other
raised error propagates. -/
def read_csv_aux (file : String → ParseOutcome) : List String → Except String Df
  | [] => .error noEncodingMsg
  | enc :: rest =>
    match file enc with
    | .ok cols rows => .ok ⟨cols, enumFrom 0 rows⟩
    | .decodeError => read_csv_aux file rest
    | .raised msg => .error msg

/-- `read_csv_safe` (lines 39-46), with the file abstracted as its parse
outcome under each encoding. -/
def read_csv_safe (file : String → ParseOutcome) : Except String Df :=
  read_csv_aux file encodings

/-- One cell of `pd.to_datetime(..., errors='coerce', dayfirst=True)`
followed by `.date()`: a parsed date or the null marker. `pdate` is the
day-first pandas date parser, an external collaborator kept abstract. -/
def parseCell (pdate : PyVal → Option Nat) (v : PyVal) : PyVal :=
  match pdate v with
  | some d => .timestamp d
  | none => .na

/-- Apply the date parser to the cells of date-named columns of one row. -/
def parseDatesRow (pdate : PyVal → Option Nat) : List String → List PyVal → List PyVal
  | _, [] => []
  | [], vs => vs
  | c :: cs, v :: vs =>
    (if isDateCol c then parseCell pdate v else v) :: parseDatesRow pdate cs vs

/-- `parse_dates` (lines 28-36): every column whose name contains "date"
is parsed as day-first calendar dates, unparsable cells becoming null. -/
def parse_dates (pdate : PyVal → Option Nat) (df : Df) : Df :=
  ⟨df.cols, df.rows.map (fun p => (p.1, parseDatesRow pdate df.cols p.2))⟩

/-- Row predicate of `df.dropna(subset=[col for col in df.columns if 'date'
in col.lower()])`: no date-named column holds a null. -/
def dateOk : List String → List PyVal → Bool
  | _, [] => true
  | [], _ => true
  | c :: cs, v :: vs =>
    (!(isDateCol c) || !(decide (v = PyVal.na))) && dateOk cs vs

/-- The `dropna` step (line 77). -/
def dropDateNa (df : Df) : Df :=
  ⟨df.cols, df.rows.filter (fun p => dateOk df.cols p.2)⟩

/-- One cell of `df.where(pd.notnull(df), None)` (line 78): `NaN` becomes
`None`; both are `PyVal.na` in this model, so the cell is preserved. -/
def noneify : PyVal → PyVal
  | .na => .na
  | v => v

/-- The `where`/`notnull` step (line 78). -/
def whereNotNull (df : Df) : Df :=
  ⟨df.cols, df.rows.map (fun p => (p.1, p.2.map noneify))⟩

/-- Lower-case all column names (line 75). -/
def lowerCols (df : Df) : Df :=
  ⟨df.cols.map pyLower, df.rows⟩

/-- The table-independent normalization pipeline (lines 75-78). -/
def normalize (pdate : PyVal → Option Nat) (df : Df) : Df :=
  whereNotNull (dropDateNa (parse_dates pdate (lowerCols df)))

/-- Index of the first column named `c`, if any. -/
def colIndex (cols : List String) (c : String) : Option Nat :=
  match cols with
  | [] => none
  | c0 :: rest => if c0 = c then some 0 else (colIndex rest c).map (· + 1)

/-- `row.get(name)` on a pandas row: the cell under the named column, or
`None` when the column is absent. -/
def rget (cols : List String) (r : List PyVal) (c : String) : Option PyVal :=
  match colIndex cols c with
  | some i => r.get? i
  | none => none

/-- `df.at[idx, name] = v`: replace the cell under the named column. -/
def rset (cols : List String) (c : String) (v : PyVal) (r : List PyVal) : List PyVal :=
  match colIndex cols c with
  | some i => r.set i v
  | none => r

/-- The values of a row standing under the columns named in `pk`, in column
order (the deduplication / conflict key of a row). -/
def keyVals {α : Type} (pk : List String) : List String → List α → List α
  | c :: cs, v :: vs => (if c ∈ pk then [v] else []) ++ keyVals pk cs vs
  | _, _ => []

/-- First-occurrence-keeping deduplication by key, with the set of already
seen keys accumulated (the semantics of `df.drop_duplicates(subset=...)`). -/
def dedupByAux {α β : Type} [DecidableEq β] (key : α → β) (seen : List β) :
    List α → List α
  | [] => []
  | x :: xs =>
    if key x ∈ seen then dedupByAux key seen xs
    else x :: dedupByAux key (key x :: seen) xs

/-- `df.drop_duplicates(subset=...)`, keeping the first representative. -/
def dedupBy {α β : Type} [DecidableEq β] (key : α → β) (l : List α) : List α :=
  dedupByAux key [] l

/-- Render a column list into the schema-error message. -/
def joinCols : List String → String
  | [] => ""
  | [c] => c
  | c :: cs => c ++ ", " ++ joinCols cs

/-- The deduplication key columns of the exchange-rate table (lines 81, 84). -/
def exchangePk : List String := ["data_actual_date", "currency_rk"]

/-- The exchange-rate branch (lines 80-84): fail the whole load when a
required column is absent, otherwise deduplicate on (date, currency id). -/
def exchangeStep (df : Df) : Except String Df :=
  if "data_actual_date" ∈ df.cols ∧ "currency_rk" ∈ df.cols then
    .ok ⟨df.cols, dedupBy (fun p => keyVals exchangePk df.cols p.2) df.rows⟩
  else
    .error ("Не хватает колонок в ds.md_exchange_rate_d: " ++ joinCols df.cols)

/-- One Bad-Row Record of the audit log. -/
structure BadRow where
  table : String
  line : Nat
  row : List PyVal
  reasons : List String
deriving DecidableEq, Repr

/-- `log_bad_row` (lines 64-66): the appended audit record; the written line
number is `index + 2` to align with file line numbers including the header. -/
def log_bad_row (table : String) (index : Nat) (row : List PyVal)
    (reasons : List String) : BadRow :=
  ⟨table, index + 2, row, reasons⟩

/-- `isinstance(v, (int, float))` on a cell: numpy numeric scalars stand for
Python numbers here; booleans, dates and strings are not numeric. -/
def isNumericPy : PyVal → Bool
  | .npInt _ => true
  | .npFloat _ _ => true
  | _ => false

/-- The `currency_code` reasons of the currency-metadata row check
(lines 91-93). -/
def codeReasons (cols : List String) (r : List PyVal) : List String :=
  match rget cols r "currency_code" with
  | none => ["currency_code некорректен: None"]
  | some code =>
    if pd_isnull code || !(isNumericPy code) then
      ["currency_code некорректен: " ++ pyStrOf code]
    else []

/-- One iteration of the currency-metadata row loop (lines 88-107): returns
the possibly updated row together with its rejection reasons. -/
def currencyRow (cols : List String) (r : List PyVal) : List PyVal × List String :=
  let cr := codeReasons cols r
  match rget cols r "code_iso_char" with
  | none => (r, cr ++ ["code_iso_char=None"])
  | some iso =>
    if pd_isnull iso then (r, cr ++ ["code_iso_char=None"])
    else
      let isoStr := pyUpper (filterAlpha (pyStrOf iso))
      if isoStr.data.length = 3 then
        (rset cols "code_iso_char" (.pyStr isoStr) r, cr)
      else
        (r, cr ++ ["code_iso_char некорректная: " ++ pyStrOf iso ++ " → " ++ isoStr])

/-- The currency-metadata validation loop: keep updated rows without
reasons, divert rows with reasons to the audit log (lines 86-110). -/
def currencyFold (cols : List String) :
    List (Nat × List PyVal) → List (Nat × List PyVal) × List BadRow
  | [] => ([], [])
  | (i, r) :: rest =>
    let rec0 := currencyFold cols rest
    let pr := currencyRow cols r
    if pr.2 = [] then ((i, pr.1) :: rec0.1, rec0.2)
    else (rec0.1, log_bad_row "ds.md_currency_d" i r pr.2 :: rec0.2)

/-- The currency-metadata branch of `load_table`. -/
def currencyStep (df : Df) : Df × List BadRow :=
  let f := currencyFold df.cols df.rows
  (⟨df.cols, f.1⟩, f.2)

/-- The full cleaning stage of `load_table` (lines 75-110): normalization
followed by the two table-specific branches. -/
def clean (pdate : PyVal → Option Nat) (table_name : String) (df0 : Df) :
    Except String (Df × List BadRow) :=
  let df4 := normalize pdate df0
  match (if table_name = "ds.md_exchange_rate_d" then exchangeStep df4 else .ok df4) with
  | .error e => .error e
  | .ok df5 =>
    if table_name = "ds.md_currency_d" then .ok (currencyStep df5)
    else .ok (df5, [])

/-- The statement shape built by `load_table`: an insert with a
conflict-resolution clause keyed on `pk`, or a plain insert. -/
inductive Query where
  | upsert (cols pk : List String)
  | plain (cols : List String)
deriving DecidableEq, Repr

/-- `upsert_query(pk_cols)` (lines 119-125): the insert-or-update statement
over the dataset's columns, updating every non-key column on conflict. -/
def upsert_query (cols pk : List String) : Query := .upsert cols pk

/-- Statement selection by table name (lines 127-138). -/
def queryFor (table_name : String) (cols : List String) : Query :=
  if table_name = "ds.ft_balance_f" then upsert_query cols ["on_date", "account_rk"]
  else if table_name = "ds.md_account_d" then
    upsert_query cols ["data_actual_date", "account_rk"]
  else if table_name = "ds.md_currency_d" then
    upsert_query cols ["currency_rk", "data_actual_date"]
  else if table_name = "ds.md_exchange_rate_d" then
    upsert_query cols ["data_actual_date", "currency_rk"]
  else if table_name = "ds.md_ledger_account_s" then
    upsert_query cols ["ledger_account", "start_date"]
  else .plain cols

/-- A destination-table row of database-native values. -/
abbrev VRow := List Value

/-- Modelled from the spec: the updated row after `ON CONFLICT ... DO UPDATE
SET col = EXCLUDED.col` for every non-key column — key columns keep the
existing value, all others take the incoming value (last-write-wins). The
relational store executing the statement is not part of the repository. -/
def mergeRow (pk : List String) : List String → VRow → VRow → VRow
  | c :: cs, o :: os, n :: ns =>
    (if c ∈ pk then o else n) :: mergeRow pk cs os ns
  | _, _, _ => []

/-- Modelled from the spec: executing the insert statement for one row —
on a primary-key collision the conflicting row is updated in place,
otherwise the row is appended (upsert), or plainly appended for tables
without declared keys. -/
def applyStmt (q : Query) (t : List VRow) (r : VRow) : List VRow :=
  match q with
  | .upsert cols pk =>
    if t.any (fun o => decide (keyVals pk cols o = keyVals pk cols r)) then
      t.map (fun o =>
        if keyVals pk cols o = keyVals pk cols r then mergeRow pk cols o r else o)
    else t ++ [r]
  | .plain _ => t ++ [r]

/-- Modelled from the spec: one statement execution against the store; a row
violating a database constraint (the abstract `ok` predicate) raises an
execution error and leaves the table unchanged. -/
def execStmt (ok : VRow → Bool) (q : Query) (t : List VRow) (r : VRow) :
    Except String (List VRow) :=
  if ok r then .ok (applyStmt q t r) else .error "constraint violation"

/-- Modelled from the spec: `execute_values` — a single multi-row statement;
any row error fails the whole statement, leaving the table unchanged. -/
def execBulk (ok : VRow → Bool) (q : Query) (t : List VRow) :
    List VRow → Except String (List VRow)
  | [] => .ok t
  | r :: rs =>
    match execStmt ok q t r with
    | .ok t' => execBulk ok q t' rs
    | .error e => .error e

/-- Modelled from the spec: the row-fallback loop (lines 145-153) — the same
statement once per row in original order, each failure caught and counted
without aborting the remaining rows. -/
def execRows (ok : VRow → Bool) (q : Query) (t : List VRow) :
    List VRow → List VRow × Nat
  | [] => (t, 0)
  | r :: rs =>
    match execStmt ok q t r with
    | .ok t' => execRows ok q t' rs
    | .error _ =>
      let p := execRows ok q t rs
      (p.1, p.2 + 1)

/-- The observable outcome of one `load_table` call: the destination table
after commit or rollback, the log-table entry fields (status, row count,
message), the reported fallback failure count, and the audit records. -/
structure LoadOutcome where
  dest : List VRow
  status : String
  rowCount : Nat
  message : String
  failedRows : Option Nat
  badRows : List BadRow
deriving DecidableEq, Repr

/-- The reading plus cleaning stages of `load_table`, both inside its `try`. -/
def pipeline (pdate : PyVal → Option Nat) (table_name : String)
    (file : String → ParseOutcome) : Except String (Df × List BadRow) :=
  match read_csv_safe file with
  | .error e => .error e
  | .ok df0 => clean pdate table_name df0

/-- The coerced parameter tuples (line 117). -/
def valuesOf (df : Df) : List VRow :=
  df.rows.map (fun p => p.2.map convert_value)

/-- `load_table` (lines 69-164): read, clean, full-replace delete for the
special-cased table, bulk insert with row fallback, then commit and a
SUCCESS entry with the dataset's row count — or, on any uncaught error,
rollback and a FAILURE entry with zero rows and the error text. -/
def load_table (pdate : PyVal → Option Nat) (ok : VRow → Bool)
    (table_name : String) (file : String → ParseOutcome) (dest : List VRow) :
    LoadOutcome :=
  match pipeline pdate table_name file with
  | .error e => ⟨dest, "FAILURE", 0, e, none, []⟩
  | .ok (df, bad) =>
    let dest1 := if table_name = "ds.ft_posting_f" then [] else dest
    let values := valuesOf df
    let q := queryFor table_name df.cols
    match execBulk ok q dest1 values with
    | .ok dest2 => ⟨dest2, "SUCCESS", df.rows.length, "", none, bad⟩
    | .error _ =>
      let p := execRows ok q dest1 values
      ⟨p.1, "SUCCESS", df.rows.length, "", some p.2, bad⟩

/-! ### Reader lemmas -/

theorem read_aux_first (file : String → ParseOutcome) (cols : List String)
    (rows : List (List PyVal)) :
    ∀ (l : List String) (i : Nat) (enc : String), l.get? i = some enc →
      (∀ j e', j < i → l.get? j = some e' → file e' = ParseOutcome.decodeError) →
      file enc = ParseOutcome.ok cols rows →
      read_csv_aux file l = .ok ⟨cols, enumFrom 0 rows⟩ := by
  intro l
  induction l with
  | nil => intro i enc hi _ _; simp at hi
  | cons e0 rest ih =>
    intro i enc hi hear hok
    cases i with
    | zero =>
      have he : e0 = enc := by simpa using hi
      subst he
      simp [read_csv_aux, hok]
    | succ i =>
      have h0 : file e0 = ParseOutcome.decodeError := hear 0 e0 (Nat.succ_pos _) rfl
      simp only [read_csv_aux, h0]
      exact ih i enc (by simpa using hi)
        (fun j e' hj hg => hear (j + 1) e' (Nat.succ_lt_succ hj) (by simpa using hg)) hok

theorem read_aux_raised (file : String → ParseOutcome) (msg : String) :
    ∀ (l : List String) (i : Nat) (enc : String), l.get? i = some enc →
      (∀ j e', j < i → l.get? j = some e' → file e' = ParseOutcome.decodeError) →
      file enc = ParseOutcome.raised msg →
      read_csv_aux file l = .error msg := by
  intro l
  induction l with
  | nil => intro i enc hi _ _; simp at hi
  | cons e0 rest ih =>
    intro i enc hi hear hraise
    cases i with
    | zero =>
      have he : e0 = enc := by simpa using hi
      subst he
      simp [read_csv_aux, hraise]
    | succ i =>
      have h0 : file e0 = ParseOutcome.decodeError := hear 0 e0 (Nat.succ_pos _) rfl
      simp only [read_csv_aux, h0]
      exact ih i enc (by simpa using hi)
        (fun j e' hj hg => hear (j + 1) e' (Nat.succ_lt_succ hj) (by simpa using hg)) hraise

theorem read_aux_alldecode (file : String → ParseOutcome) :
    ∀ l : List String, (∀ e ∈ l, file e = ParseOutcome.decodeError) →
      read_csv_aux file l = .error noEncodingMsg := by
  intro l
  induction l with
  | nil => intro _; rfl
  | cons e0 rest ih =>
    intro h
    have h0 : file e0 = ParseOutcome.decodeError := h e0 (List.mem_cons_self _ _)
    simp only [read_csv_aux, h0]
    exact ih (fun e he => h e (List.mem_cons_of_mem _ he))

theorem take_all_decode (file : String → ParseOutcome) :
    ∀ (l : List String) (i : Nat),
      (l.take i).all (fun e => decide (file e = ParseOutcome.decodeError)) = true →
      ∀ j e', j < i → l.get? j = some e' → file e' = ParseOutcome.decodeError := by
  intro l
  induction l with
  | nil => intro i _ j e' _ hg; simp at hg
  | cons a as ih =>
    intro i hall j e' hj hg
    cases i with
    | zero => omega
    | succ i =>
      rw [List.take_succ_cons, List.all_cons] at hall
      have h1 := (Bool.and_eq_true _ _).mp hall
      cases j with
      | zero =>
        have : a = e' := by simpa using hg
        subst this
        exact of_decide_eq_true h1.1
      | succ j =>
        exact ih i h1.2 j e' (Nat.lt_of_succ_lt_succ hj) (by simpa using hg)

/-- C7: the reader attempts each encoding of the fixed priority list
(UTF-8, cp1251, ISO-8859-1) in order and returns the first successful
parse — a file parseable under encoding `enc` whose earlier-priority
encodings all fail to decode is loaded using `enc`'s parse — and when no
encoding succeeds the reader fails with the terminal error. -/
theorem c7_encoding_priority (file : String → ParseOutcome) :
    (∀ (i : Nat) (enc : String) (cols : List String) (rows : List (List PyVal)),
        encodings.get? i = some enc →
        (encodings.take i).all (fun e => decide (file e = ParseOutcome.decodeError)) = true →
        file enc = ParseOutcome.ok cols rows →
        read_csv_safe file = .ok ⟨cols, enumFrom 0 rows⟩)
    ∧ ((encodings.all (fun e => decide (file e = ParseOutcome.decodeError)) = true) →
        read_csv_safe file = .error noEncodingMsg) := by
  constructor
  · intro i enc cols rows hi hall hok
    exact read_aux_first file cols rows encodings i enc hi
      (take_all_decode file encodings i hall) hok
  · intro hall
    exact read_aux_alldecode file encodings
      (fun e he => of_decide_eq_true (List.all_eq_true.mp hall e he))

/-- A file that decodes only under cp1251; ISO-8859-1 would also parse but
must never be reached. -/
def c7FileCp : String → ParseOutcome := fun enc =>
  if enc = "cp1251" then .ok ["c"] [[.pyStr "в"]]
  else if enc = "utf-8" then .decodeError
  else .ok ["never"] []

/-- A file no configured encoding can decode. -/
def c7FileNone : String → ParseOutcome := fun _ => .decodeError

theorem c7_encoding_priority_witness :
    read_csv_safe c7FileCp = .ok ⟨["c"], [(0, [.pyStr "в"])]⟩
    ∧ read_csv_safe c7FileNone = .error noEncodingMsg :=
  ⟨(c7_encoding_priority c7FileCp).1 1 "cp1251" ["c"] [[.pyStr "в"]] rfl (by decide) rfl,
   (c7_encoding_priority c7FileNone).2 (by decide)⟩

/-- C10: only a decode error moves the reader on to the next encoding; a
non-decode error raised while parsing under an earlier-priority encoding
propagates immediately, so the later encodings are never attempted
(the conclusion holds whatever `file` does on later encodings). -/
theorem c10_nondecode_propagates (file : String → ParseOutcome) (i : Nat)
    (enc msg : String)
    (hi : encodings.get? i = some enc)
    (hall : (encodings.take i).all (fun e => decide (file e = ParseOutcome.decodeError)) = true)
    (hraised : file enc = ParseOutcome.raised msg) :
    read_csv_safe file = .error msg :=
  read_aux_raised file msg encodings i enc hi (take_all_decode file encodings i hall) hraised

/-- A file that decodes under UTF-8 but has malformed delimited structure
there; the later encodings would parse it fine. -/
def c10File : String → ParseOutcome := fun enc =>
  if enc = "utf-8" then .raised "malformed structure" else .ok ["x"] []

theorem c10_nondecode_propagates_witness :
    read_csv_safe c10File = .error "malformed structure" :=
  c10_nondecode_propagates c10File 0 "utf-8" "malformed structure" rfl (by decide) rfl

/-! ### Loader lemmas -/

theorem execBulk_all_ok (ok : VRow → Bool) (q : Query) :
    ∀ (vs t : List VRow), (∀ r ∈ vs, ok r = true) →
      execBulk ok q t vs = .ok (vs.foldl (applyStmt q) t) := by
  intro vs
  induction vs with
  | nil => intro t _; rfl
  | cons r rs ih =>
    intro t h
    have hr : ok r = true := h r (List.mem_cons_self _ _)
    simp only [execBulk, execStmt, hr, if_true, List.foldl_cons]
    exact ih _ (fun r' hr' => h r' (List.mem_cons_of_mem _ hr'))

theorem execBulk_error_of_bad (ok : VRow → Bool) (q : Query) :
    ∀ (vs t : List VRow), (∃ r ∈ vs, ok r = false) →
      ∃ e, execBulk ok q t vs = .error e := by
  intro vs
  induction vs with
  | nil => intro t h; simp at h
  | cons r rs ih =>
    intro t h
    cases hr : ok r with
    | false => exact ⟨"constraint violation", by simp [execBulk, execStmt, hr]⟩
    | true =>
      obtain ⟨r', hr', hbad⟩ := h
      rcases List.mem_cons.mp hr' with heq | hmem
      · subst heq; rw [hr] at hbad; cases hbad
      · simp only [execBulk, execStmt, hr, if_true]
        exact ih _ ⟨r', hmem, hbad⟩

theorem execRows_count (ok : VRow → Bool) (q : Query) :
    ∀ (vs t : List VRow), (execRows ok q t vs).2 = vs.countP (fun r => !(ok r)) := by
  intro vs
  induction vs with
  | nil => intro t; rfl
  | cons r rs ih =>
    intro t
    cases hr : ok r with
    | true => simp [execRows, execStmt, hr, ih, List.countP_cons]
    | false => simp [execRows, execStmt, hr, ih, List.countP_cons]

theorem foldl_plain (cols : List String) :
    ∀ (vs t : List VRow), vs.foldl (applyStmt (Query.plain cols)) t = t ++ vs := by
  intro vs
  induction vs with
  | nil => intro t; simp
  | cons r rs ih =>
    intro t
    simp only [List.foldl_cons, applyStmt, ih]
    simp

/-- C2: on any uncaught pipeline error the table's transaction is rolled
back — the destination is unchanged — and a FAILURE entry with row count
zero and the error text is recorded; a load that completes without a fatal
error commits and records a SUCCESS entry with the final row count. -/
theorem c2_transaction_and_log (pdate : PyVal → Option Nat) (ok : VRow → Bool)
    (tn : String) (file : String → ParseOutcome) (dest : List VRow) :
    (∃ e, pipeline pdate tn file = .error e ∧
        load_table pdate ok tn file dest = ⟨dest, "FAILURE", 0, e, none, []⟩)
    ∨ (∃ df bad, pipeline pdate tn file = .ok (df, bad) ∧
        (load_table pdate ok tn file dest).status = "SUCCESS" ∧
        (load_table pdate ok tn file dest).rowCount = df.rows.length ∧
        (load_table pdate ok tn file dest).message = "") := by
  cases hp : pipeline pdate tn file with
  | error e =>
    left
    exact ⟨e, rfl, by simp [load_table, hp]⟩
  | ok p =>
    right
    obtain ⟨df, bad⟩ := p
    refine ⟨df, bad, rfl, ?_⟩
    cases hb : execBulk ok (queryFor tn df.cols)
        (if tn = "ds.ft_posting_f" then [] else dest) (valuesOf df) with
    | ok d2 => simp [load_table, hp, hb]
    | error e => simp [load_table, hp, hb]

/-- C8: `convert_value` maps every cell by the fixed priority — null-like
to canonical null, date-like to calendar date, integer to platform integer,
float to platform float, boolean to boolean, anything else to a
whitespace-trimmed string — so its result is always one of exactly these
six kinds. -/
theorem c8_convert_value_kinds (v : PyVal) :
    (pd_isnull v = true → convert_value v = Value.null)
    ∧ (∀ d, v = PyVal.timestamp d → convert_value v = Value.date d)
    ∧ (∀ n, v = PyVal.npInt n → convert_value v = Value.int n)
    ∧ (∀ m e, v = PyVal.npFloat m e → convert_value v = Value.float m e)
    ∧ (∀ b, v = PyVal.npBool b → convert_value v = Value.bool b)
    ∧ (∀ s, v = PyVal.pyStr s → convert_value v = Value.str (pyStrip s))
    ∧ (convert_value v = Value.null
        ∨ (∃ d, convert_value v = Value.date d)
        ∨ (∃ n, convert_value v = Value.int n)
        ∨ (∃ m e, convert_value v = Value.float m e)
        ∨ (∃ b, convert_value v = Value.bool b)
        ∨ (∃ s, convert_value v = Value.str s)) := by
  cases v <;> simp [convert_value, pd_isnull]

theorem c8_convert_value_kinds_witness :
    convert_value PyVal.na = Value.null
    ∧ convert_value (PyVal.timestamp 3) = Value.date 3
    ∧ convert_value (PyVal.npInt (-2)) = Value.int (-2)
    ∧ convert_value (PyVal.npFloat 15 1) = Value.float 15 1
    ∧ convert_value (PyVal.npBool true) = Value.bool true
    ∧ convert_value (PyVal.pyStr "  usd ") = Value.str (pyStrip "  usd ") :=
  ⟨(c8_convert_value_kinds .na).1 rfl,
   (c8_convert_value_kinds (.timestamp 3)).2.1 3 rfl,
   (c8_convert_value_kinds (.npInt (-2))).2.2.1 (-2) rfl,
   (c8_convert_value_kinds (.npFloat 15 1)).2.2.2.1 15 1 rfl,
   (c8_convert_value_kinds (.npBool true)).2.2.2.2.1 true rfl,
   (c8_convert_value_kinds (.pyStr "  usd ")).2.2.2.2.2.1 "  usd " rfl⟩

/-- Date parser stub used by concrete loads whose files hold no parsable
dates. -/
def pdNone : PyVal → Option Nat := fun _ => none

/-- A store without constraints: every row passes. -/
def okAll : VRow → Bool := fun _ => true

/-- C1's batch: two rows, of which exactly the second violates a
constraint of the destination table. -/
def c1File : String → ParseOutcome := fun enc =>
  if enc = "utf-8" then .ok ["a"] [[.npInt 1], [.npInt 2]] else .decodeError

/-- The constraint violated by the second row of `c1File`. -/
def c1Ok : VRow → Bool := fun r => !(decide (r = [Value.int 2]))

/-- C1 amended: when the bulk insert raises and the batch is re-executed
row by row, each failure is caught and counted without aborting the
remaining rows, and the table-level entry records SUCCESS with row count
equal to the FULL cleaned batch size (the failed row included), with the
failure count reported separately. -/
theorem c1_row_fallback_amended (pdate : PyVal → Option Nat) (ok : VRow → Bool)
    (tn : String) (file : String → ParseOutcome) (dest : List VRow)
    (df : Df) (bad : List BadRow)
    (hp : pipeline pdate tn file = .ok (df, bad))
    (hone : (valuesOf df).countP (fun r => !(ok r)) = 1) :
    load_table pdate ok tn file dest =
      ⟨(execRows ok (queryFor tn df.cols)
          (if tn = "ds.ft_posting_f" then [] else dest) (valuesOf df)).1,
        "SUCCESS", df.rows.length, "", some 1, bad⟩ := by
  have hbad : ∃ r ∈ valuesOf df, ok r = false := by
    have hpos : 0 < (valuesOf df).countP (fun r => !(ok r)) := by omega
    obtain ⟨r, hr, hpr⟩ := List.countP_pos_iff.mp hpos
    exact ⟨r, hr, by simpa using hpr⟩
  obtain ⟨e, he⟩ := execBulk_error_of_bad ok (queryFor tn df.cols) (valuesOf df)
    (if tn = "ds.ft_posting_f" then [] else dest) hbad
  simp [load_table, hp, he, execRows_count, hone]

/-- C1 counterexample: a two-row batch with exactly one constraint-violating
row is logged as SUCCESS with row count 2 — not (total rows − 1) = 1 as the
claim states — while exactly one row failure is reported. -/
theorem c1_row_fallback_counterexample :
    (valuesOf ⟨["a"], [(0, [.npInt 1]), (1, [.npInt 2])]⟩).length = 2
    ∧ (valuesOf ⟨["a"], [(0, [.npInt 1]), (1, [.npInt 2])]⟩).countP
        (fun r => !(c1Ok r)) = 1
    ∧ (load_table pdNone c1Ok "t" c1File []).status = "SUCCESS"
    ∧ (load_table pdNone c1Ok "t" c1File []).failedRows = some 1
    ∧ (load_table pdNone c1Ok "t" c1File []).rowCount = 2
    ∧ ¬((load_table pdNone c1Ok "t" c1File []).rowCount = 2 - 1) := by decide

theorem c1_row_fallback_witness :
    load_table pdNone c1Ok "t" c1File [] =
      ⟨[[Value.int 1]], "SUCCESS", 2, "", some 1, []⟩ := by
  have h := c1_row_fallback_amended pdNone c1Ok "t" c1File []
    ⟨["a"], [(0, [.npInt 1]), (1, [.npInt 2])]⟩ [] rfl (by decide)
  exact h.trans (by decide)

/-- C3: on a successful load of the full-replace table `ds.ft_posting_f`
the destination ends up holding exactly the new batch — the pre-existing
rows are deleted inside the same transaction — so its row count equals the
new file's cleaned row count regardless of what was loaded before. -/
theorem c3_full_replace (pdate : PyVal → Option Nat) (ok : VRow → Bool)
    (file : String → ParseOutcome) (dest : List VRow) (df : Df) (bad : List BadRow)
    (hp : pipeline pdate "ds.ft_posting_f" file = .ok (df, bad))
    (hok : ∀ r ∈ valuesOf df, ok r = true) :
    load_table pdate ok "ds.ft_posting_f" file dest =
      ⟨valuesOf df, "SUCCESS", df.rows.length, "", none, bad⟩
    ∧ (load_table pdate ok "ds.ft_posting_f" file dest).dest.length = df.rows.length := by
  have hq : queryFor "ds.ft_posting_f" df.cols = Query.plain df.cols := rfl
  have hb := execBulk_all_ok ok (Query.plain df.cols) (valuesOf df) [] hok
  rw [foldl_plain, List.nil_append] at hb
  have h1 : load_table pdate ok "ds.ft_posting_f" file dest =
      ⟨valuesOf df, "SUCCESS", df.rows.length, "", none, bad⟩ := by
    simp [load_table, hp, hq, hb]
  refine ⟨h1, ?_⟩
  rw [h1]
  simp [valuesOf]

/-- C3's new file: two rows replacing a previously loaded three. -/
def c3File : String → ParseOutcome := fun enc =>
  if enc = "utf-8" then .ok ["a"] [[.npInt 1], [.npInt 2]] else .decodeError

theorem c3_full_replace_witness :
    load_table pdNone okAll "ds.ft_posting_f" c3File [[.int 9], [.int 8], [.int 7]] =
      ⟨[[Value.int 1], [Value.int 2]], "SUCCESS", 2, "", none, []⟩
    ∧ (2 : Nat) < 3 := by
  have h := c3_full_replace pdNone okAll c3File [[.int 9], [.int 8], [.int 7]]
    ⟨["a"], [(0, [.npInt 1]), (1, [.npInt 2])]⟩ [] rfl (by decide)
  exact ⟨h.1.trans (by decide), by decide⟩

/-! ### Upsert algebra of the modelled store -/

/-- Every row of `t` has one value per column. -/
abbrev rowsWf (cols : List String) (t : List VRow) : Prop :=
  ∀ r ∈ t, r.length = cols.length

/-- Some row of `t` stands under the conflict key `k`. -/
abbrev hasK (pk cols : List String) (t : List VRow) (k : List Value) : Prop :=
  ∃ o ∈ t, keyVals pk cols o = k

/-- Number of rows of `t` standing under the conflict key `k`. -/
def countK (pk cols : List String) (t : List VRow) (k : List Value) : Nat :=
  t.countP (fun o => decide (keyVals pk cols o = k))

theorem keyVals_mergeRow (pk : List String) :
    ∀ (cs : List String) (o n : VRow), o.length = n.length →
      keyVals pk cs (mergeRow pk cs o n) = keyVals pk cs o := by
  intro cs
  induction cs with
  | nil => intro o n _; rfl
  | cons c cs ih =>
    intro o n hlen
    cases o with
    | nil =>
      cases n with
      | nil => rfl
      | cons n0 ns => simp at hlen
    | cons o0 os =>
      cases n with
      | nil => simp at hlen
      | cons n0 ns =>
        have hlen' : os.length = ns.length := by simpa using hlen
        by_cases hc : c ∈ pk <;>
          simp [mergeRow, keyVals, hc, ih os ns hlen']

theorem mergeRow_length (pk : List String) :
    ∀ (cs : List String) (o n : VRow), o.length = cs.length → n.length = cs.length →
      (mergeRow pk cs o n).length = cs.length := by
  intro cs
  induction cs with
  | nil => intro o n _ _; rfl
  | cons c cs ih =>
    intro o n ho hn
    cases o with
    | nil => simp at ho
    | cons o0 os =>
      cases n with
      | nil => simp at hn
      | cons n0 ns =>
        simp [mergeRow, ih os ns (by simpa using ho) (by simpa using hn)]

theorem applyStmt_present (pk cols : List String) (t : List VRow) (r : VRow)
    (h : hasK pk cols t (keyVals pk cols r)) :
    applyStmt (.upsert cols pk) t r =
      t.map (fun o =>
        if keyVals pk cols o = keyVals pk cols r then mergeRow pk cols o r else o) := by
  have ha : t.any (fun o => decide (keyVals pk cols o = keyVals pk cols r)) = true := by
    rw [List.any_eq_true]
    obtain ⟨o, ho, hk⟩ := h
    exact ⟨o, ho, by simpa using hk⟩
  simp [applyStmt, ha]

theorem applyStmt_absent (pk cols : List String) (t : List VRow) (r : VRow)
    (h : ¬ hasK pk cols t (keyVals pk cols r)) :
    applyStmt (.upsert cols pk) t r = t ++ [r] := by
  have ha : t.any (fun o => decide (keyVals pk cols o = keyVals pk cols r)) = false := by
    rw [← Bool.not_eq_true, List.any_eq_true]
    intro ⟨o, ho, hk⟩
    exact h ⟨o, ho, by simpa using hk⟩
  simp [applyStmt, ha]

theorem upsert_length_of_hasK (pk cols : List String) (t : List VRow) (r : VRow)
    (h : hasK pk cols t (keyVals pk cols r)) :
    (applyStmt (.upsert cols pk) t r).length = t.length := by
  rw [applyStmt_present pk cols t r h, List.length_map]

theorem upsert_wf (pk cols : List String) (t : List VRow) (r : VRow)
    (hwt : rowsWf cols t) (hwr : r.length = cols.length) :
    rowsWf cols (applyStmt (.upsert cols pk) t r) := by
  intro x hx
  by_cases h : hasK pk cols t (keyVals pk cols r)
  · rw [applyStmt_present pk cols t r h] at hx
    obtain ⟨o, ho, rfl⟩ := List.mem_map.mp hx
    by_cases hk : keyVals pk cols o = keyVals pk cols r
    · rw [if_pos hk]
      exact mergeRow_length pk cols o r (hwt o ho) hwr
    · rw [if_neg hk]
      exact hwt o ho
  · rw [applyStmt_absent pk cols t r h] at hx
    rcases List.mem_append.mp hx with hm | hm
    · exact hwt x hm
    · simp at hm
      subst hm
      exact hwr

theorem upsert_hasK_self (pk cols : List String) (t : List VRow) (r : VRow)
    (hwt : rowsWf cols t) (hwr : r.length = cols.length) :
    hasK pk cols (applyStmt (.upsert cols pk) t r) (keyVals pk cols r) := by
  by_cases h : hasK pk cols t (keyVals pk cols r)
  · obtain ⟨o, ho, hk⟩ := h
    rw [applyStmt_present pk cols t r ⟨o, ho, hk⟩]
    refine ⟨mergeRow pk cols o r, ?_, ?_⟩
    · exact List.mem_map.mpr ⟨o, ho, by rw [if_pos hk]⟩
    · rw [keyVals_mergeRow pk cols o r ((hwt o ho).trans hwr.symm)]
      exact hk
  · rw [applyStmt_absent pk cols t r h]
    exact ⟨r, by simp, rfl⟩

theorem upsert_hasK_mono (pk cols : List String) (t : List VRow) (r : VRow)
    (k : List Value) (hwt : rowsWf cols t) (hwr : r.length = cols.length)
    (h : hasK pk cols t k) :
    hasK pk cols (applyStmt (.upsert cols pk) t r) k := by
  obtain ⟨o, ho, hk⟩ := h
  by_cases hp : hasK pk cols t (keyVals pk cols r)
  · rw [applyStmt_present pk cols t r hp]
    refine ⟨if keyVals pk cols o = keyVals pk cols r then mergeRow pk cols o r else o,
      List.mem_map.mpr ⟨o, ho, rfl⟩, ?_⟩
    by_cases hk2 : keyVals pk cols o = keyVals pk cols r
    · rw [if_pos hk2, keyVals_mergeRow pk cols o r ((hwt o ho).trans hwr.symm)]
      exact hk
    · rw [if_neg hk2]
      exact hk
  · rw [applyStmt_absent pk cols t r hp]
    exact ⟨o, List.mem_append_left _ ho, hk⟩

theorem countK_eq_zero_of_not_hasK (pk cols : List String) (t : List VRow)
    (k : List Value) (h : ¬ hasK pk cols t k) : countK pk cols t k = 0 := by
  rw [countK, List.countP_eq_zero]
  intro o ho hk
  exact h ⟨o, ho, of_decide_eq_true hk⟩

theorem upsert_countK_le (pk cols : List String) (t : List VRow) (r : VRow)
    (k : List Value) (hwt : rowsWf cols t) (hwr : r.length = cols.length)
    (h : countK pk cols t k ≤ 1) :
    countK pk cols (applyStmt (.upsert cols pk) t r) k ≤ 1 := by
  by_cases hp : hasK pk cols t (keyVals pk cols r)
  · rw [countK, applyStmt_present pk cols t r hp, List.countP_map]
    have heq : ∀ o ∈ t,
        (decide (keyVals pk cols
          (if keyVals pk cols o = keyVals pk cols r then mergeRow pk cols o r else o) = k))
        = decide (keyVals pk cols o = k) := by
      intro o ho
      by_cases hk2 : keyVals pk cols o = keyVals pk cols r
      · rw [if_pos hk2, keyVals_mergeRow pk cols o r ((hwt o ho).trans hwr.symm)]
      · rw [if_neg hk2]
    calc List.countP (fun o => decide (keyVals pk cols
            (if keyVals pk cols o = keyVals pk cols r then mergeRow pk cols o r else o) = k)) t
        = List.countP (fun o => decide (keyVals pk cols o = k)) t := by
          exact List.countP_congr (fun o ho => by rw [heq o ho])
      _ ≤ 1 := h
  · rw [countK, applyStmt_absent pk cols t r hp, List.countP_append]
    by_cases hk : keyVals pk cols r = k
    · have h0 : countK pk cols t k = 0 := by
        apply countK_eq_zero_of_not_hasK
        intro ⟨o, ho, hko⟩
        exact hp ⟨o, ho, by rw [hko, hk]⟩
      rw [countK] at h0
      simp [h0, hk]
    · have h1 : List.countP (fun o => decide (keyVals pk cols o = k)) [r] = 0 := by
        simp [hk]
      rw [h1]
      simpa [countK] using h

theorem fold_wf (pk cols : List String) :
    ∀ (vs : List VRow) (t : List VRow), rowsWf cols t →
      (∀ v ∈ vs, v.length = cols.length) →
      rowsWf cols (vs.foldl (applyStmt (.upsert cols pk)) t) := by
  intro vs
  induction vs with
  | nil => intro t hwt _; exact hwt
  | cons v vs ih =>
    intro t hwt hwv
    rw [List.foldl_cons]
    exact ih _ (upsert_wf pk cols t v hwt (hwv v (List.mem_cons_self _ _)))
      (fun v' hv' => hwv v' (List.mem_cons_of_mem _ hv'))

theorem fold_hasK_mono (pk cols : List String) :
    ∀ (vs : List VRow) (t : List VRow) (k : List Value), rowsWf cols t →
      (∀ v ∈ vs, v.length = cols.length) → hasK pk cols t k →
      hasK pk cols (vs.foldl (applyStmt (.upsert cols pk)) t) k := by
  intro vs
  induction vs with
  | nil => intro t k _ _ h; exact h
  | cons v vs ih =>
    intro t k hwt hwv h
    rw [List.foldl_cons]
    exact ih _ k (upsert_wf pk cols t v hwt (hwv v (List.mem_cons_self _ _)))
      (fun v' hv' => hwv v' (List.mem_cons_of_mem _ hv'))
      (upsert_hasK_mono pk cols t v k hwt (hwv v (List.mem_cons_self _ _)) h)

theorem fold_hasK_of_mem (pk cols : List String) :
    ∀ (vs : List VRow) (t : List VRow) (r : VRow), rowsWf cols t →
      (∀ v ∈ vs, v.length = cols.length) → r ∈ vs →
      hasK pk cols (vs.foldl (applyStmt (.upsert cols pk)) t) (keyVals pk cols r) := by
  intro vs
  induction vs with
  | nil => intro t r _ _ h; simp at h
  | cons v vs ih =>
    intro t r hwt hwv hr
    rw [List.foldl_cons]
    have hwv' : ∀ v' ∈ vs, v'.length = cols.length :=
      fun v' hv' => hwv v' (List.mem_cons_of_mem _ hv')
    have hwt' : rowsWf cols (applyStmt (.upsert cols pk) t v) :=
      upsert_wf pk cols t v hwt (hwv v (List.mem_cons_self _ _))
    rcases List.mem_cons.mp hr with heq | hmem
    · subst heq
      exact fold_hasK_mono pk cols vs _ _ hwt' hwv'
        (upsert_hasK_self pk cols t r hwt (hwv r (List.mem_cons_self _ _)))
    · exact ih _ r hwt' hwv' hmem

theorem fold_length_of_all_hasK (pk cols : List String) :
    ∀ (vs : List VRow) (t : List VRow), rowsWf cols t →
      (∀ v ∈ vs, v.length = cols.length) →
      (∀ v ∈ vs, hasK pk cols t (keyVals pk cols v)) →
      (vs.foldl (applyStmt (.upsert cols pk)) t).length = t.length := by
  intro vs
  induction vs with
  | nil => intro t _ _ _; rfl
  | cons v vs ih =>
    intro t hwt hwv hall
    rw [List.foldl_cons]
    have h1 : (applyStmt (.upsert cols pk) t v).length = t.length :=
      upsert_length_of_hasK pk cols t v (hall v (List.mem_cons_self _ _))
    have hwt' : rowsWf cols (applyStmt (.upsert cols pk) t v) :=
      upsert_wf pk cols t v hwt (hwv v (List.mem_cons_self _ _))
    have hwv' : ∀ v' ∈ vs, v'.length = cols.length :=
      fun v' hv' => hwv v' (List.mem_cons_of_mem _ hv')
    have hall' : ∀ v' ∈ vs, hasK pk cols (applyStmt (.upsert cols pk) t v)
        (keyVals pk cols v') :=
      fun v' hv' => upsert_hasK_mono pk cols t v _ hwt
        (hwv v (List.mem_cons_self _ _)) (hall v' (List.mem_cons_of_mem _ hv'))
    rw [ih _ hwt' hwv' hall', h1]

theorem fold_countK_le (pk cols : List String) :
    ∀ (vs : List VRow) (t : List VRow) (k : List Value), rowsWf cols t →
      (∀ v ∈ vs, v.length = cols.length) → countK pk cols t k ≤ 1 →
      countK pk cols (vs.foldl (applyStmt (.upsert cols pk)) t) k ≤ 1 := by
  intro vs
  induction vs with
  | nil => intro t k _ _ h; exact h
  | cons v vs ih =>
    intro t k hwt hwv h
    rw [List.foldl_cons]
    exact ih _ k (upsert_wf pk cols t v hwt (hwv v (List.mem_cons_self _ _)))
      (fun v' hv' => hwv v' (List.mem_cons_of_mem _ hv'))
      (upsert_countK_le pk cols t v k hwt (hwv v (List.mem_cons_self _ _)) h)

theorem countK_pos_of_hasK (pk cols : List String) (t : List VRow) (k : List Value)
    (h : hasK pk cols t k) : 1 ≤ countK pk cols t k := by
  rw [countK]
  apply List.countP_pos_iff.mpr
  obtain ⟨o, ho, hk⟩ := h
  exact ⟨o, ho, by simpa using hk⟩

/-- C9: for a table whose statement carries a declared primary-key column
set, loading the same file twice in succession yields the same destination
row count as loading it once — the conflict clause resolves each collision
by updating the existing row in place instead of inserting a duplicate. -/
theorem c9_upsert_idempotent (pdate : PyVal → Option Nat) (ok : VRow → Bool)
    (tn : String) (file : String → ParseOutcome) (dest : List VRow)
    (df : Df) (bad : List BadRow) (pk : List String)
    (hp : pipeline pdate tn file = .ok (df, bad))
    (hq : queryFor tn df.cols = Query.upsert df.cols pk)
    (hwdest : rowsWf df.cols dest)
    (hwvals : ∀ v ∈ valuesOf df, v.length = df.cols.length)
    (hok : ∀ r ∈ valuesOf df, ok r = true) :
    (load_table pdate ok tn file dest).status = "SUCCESS"
    ∧ (load_table pdate ok tn file (load_table pdate ok tn file dest).dest).status
        = "SUCCESS"
    ∧ (load_table pdate ok tn file (load_table pdate ok tn file dest).dest).dest.length
        = (load_table pdate ok tn file dest).dest.length := by
  have hne : tn ≠ "ds.ft_posting_f" := by
    intro h
    subst h
    have : queryFor "ds.ft_posting_f" df.cols = Query.plain df.cols := rfl
    rw [this] at hq
    cases hq
  have hb1 := execBulk_all_ok ok (Query.upsert df.cols pk) (valuesOf df) dest hok
  have hL1 : load_table pdate ok tn file dest =
      ⟨(valuesOf df).foldl (applyStmt (.upsert df.cols pk)) dest,
        "SUCCESS", df.rows.length, "", none, bad⟩ := by
    simp [load_table, hp, hq, hne, hb1]
  have hwt1 : rowsWf df.cols ((valuesOf df).foldl (applyStmt (.upsert df.cols pk)) dest) :=
    fold_wf pk df.cols (valuesOf df) dest hwdest hwvals
  have hb2 := execBulk_all_ok ok (Query.upsert df.cols pk) (valuesOf df)
    ((valuesOf df).foldl (applyStmt (.upsert df.cols pk)) dest) hok
  have hL2 : load_table pdate ok tn file
      ((valuesOf df).foldl (applyStmt (.upsert df.cols pk)) dest) =
      ⟨(valuesOf df).foldl (applyStmt (.upsert df.cols pk))
          ((valuesOf df).foldl (applyStmt (.upsert df.cols pk)) dest),
        "SUCCESS", df.rows.length, "", none, bad⟩ := by
    simp [load_table, hp, hq, hne, hb2]
  have hall : ∀ v ∈ valuesOf df,
      hasK pk df.cols ((valuesOf df).foldl (applyStmt (.upsert df.cols pk)) dest)
        (keyVals pk df.cols v) :=
    fun v hv => fold_hasK_of_mem pk df.cols (valuesOf df) dest v hwdest hwvals hv
  have hlen := fold_length_of_all_hasK pk df.cols (valuesOf df)
    ((valuesOf df).foldl (applyStmt (.upsert df.cols pk)) dest) hwt1 hwvals hall
  rw [hL1]
  refine ⟨rfl, ?_, ?_⟩
  · rw [hL2]
  · rw [hL2]
    exact hlen

/-- C9's file: two rows with distinct primary keys for the upsert-configured
balance table. -/
def c9File : String → ParseOutcome := fun enc =>
  if enc = "utf-8" then
    .ok ["ON_DATE", "ACCOUNT_RK", "BALANCE"]
      [[.pyStr "01.01.2018", .npInt 10, .npInt 100],
       [.pyStr "01.01.2018", .npInt 20, .npInt 200]]
  else .decodeError

/-- Day-first parser stub for `c9File`: every raw string cell denotes the
same date. -/
def c9Pdate : PyVal → Option Nat := fun v =>
  match v with
  | .pyStr _ => some 17532
  | .timestamp d => some d
  | _ => none

theorem c9_upsert_idempotent_witness :
    (load_table c9Pdate okAll "ds.ft_balance_f" c9File []).status = "SUCCESS"
    ∧ (load_table c9Pdate okAll "ds.ft_balance_f" c9File
        (load_table c9Pdate okAll "ds.ft_balance_f" c9File []).dest).status = "SUCCESS"
    ∧ (load_table c9Pdate okAll "ds.ft_balance_f" c9File
          (load_table c9Pdate okAll "ds.ft_balance_f" c9File []).dest).dest.length
        = (load_table c9Pdate okAll "ds.ft_balance_f" c9File []).dest.length :=
  c9_upsert_idempotent c9Pdate okAll "ds.ft_balance_f" c9File []
    ⟨["on_date", "account_rk", "balance"],
      [(0, [.timestamp 17532, .npInt 10, .npInt 100]),
       (1, [.timestamp 17532, .npInt 20, .npInt 200])]⟩
    [] ["on_date", "account_rk"] rfl rfl (by decide) (by decide) (by decide)

/-! ### Deduplication lemmas -/

theorem dedupByAux_subset {α β : Type} [DecidableEq β] (key : α → β) :
    ∀ (l : List α) (seen : List β) (x : α), x ∈ dedupByAux key seen l → x ∈ l := by
  intro l
  induction l with
  | nil => intro seen x h; simp [dedupByAux] at h
  | cons y ys ih =>
    intro seen x h
    by_cases hk : key y ∈ seen
    · rw [dedupByAux, if_pos hk] at h
      exact List.mem_cons_of_mem _ (ih seen x h)
    · rw [dedupByAux, if_neg hk] at h
      rcases List.mem_cons.mp h with heq | hmem
      · subst heq; exact List.mem_cons_self _ _
      · exact List.mem_cons_of_mem _ (ih _ x hmem)

theorem dedupByAux_countP_le {α β : Type} [DecidableEq β] (key : α → β) (k : β) :
    ∀ (l : List α) (seen : List β),
      (dedupByAux key seen l).countP (fun x => decide (key x = k)) ≤
        (if k ∈ seen then 0 else 1) := by
  intro l
  induction l with
  | nil =>
    intro seen
    simp only [dedupByAux, List.countP_nil]
    split <;> omega
  | cons y ys ih =>
    intro seen
    by_cases hy : key y ∈ seen
    · rw [dedupByAux, if_pos hy]
      exact ih seen
    · rw [dedupByAux, if_neg hy, List.countP_cons]
      by_cases hk : key y = k
      · have hks : k ∉ seen := hk ▸ hy
        rw [if_neg hks]
        have h0 : (dedupByAux key (key y :: seen) ys).countP
            (fun x => decide (key x = k)) = 0 := by
          have h2 := ih (key y :: seen)
          rw [if_pos (by rw [← hk]; exact List.mem_cons_self _ _)] at h2
          omega
        have hz : (if (decide (key y = k)) = true then 1 else 0) = 1 := by simp [hk]
        rw [h0, hz]
      · have hz : (if (decide (key y = k)) = true then 1 else 0) = 0 := by simp [hk]
        rw [hz, Nat.add_zero]
        have h2 := ih (key y :: seen)
        by_cases hks : k ∈ seen
        · rw [if_pos hks]
          rw [if_pos (List.mem_cons_of_mem _ hks)] at h2
          exact h2
        · rw [if_neg hks]
          rw [if_neg (by
            intro hmem
            rcases List.mem_cons.mp hmem with heq | hm
            · exact hk heq.symm
            · exact hks hm)] at h2
          exact h2

theorem dedupBy_countP_le {α β : Type} [DecidableEq β] (key : α → β) (k : β)
    (l : List α) :
    (dedupBy key l).countP (fun x => decide (key x = k)) ≤ 1 := by
  have h := dedupByAux_countP_le key k l []
  simpa [dedupBy] using h

/-! ### Exchange-rate pipeline shape -/

theorem exchangeStep_ok (x d : Df) (h : exchangeStep x = .ok d) :
    d = ⟨x.cols, dedupBy (fun p => keyVals exchangePk x.cols p.2) x.rows⟩
    ∧ "data_actual_date" ∈ x.cols ∧ "currency_rk" ∈ x.cols := by
  rw [exchangeStep] at h
  split_ifs at h with hc
  · injection h with h
    exact ⟨h.symm, hc⟩

theorem pipeline_exchange (pdate : PyVal → Option Nat)
    (file : String → ParseOutcome) (df0 : Df)
    (hread : read_csv_safe file = .ok df0) :
    pipeline pdate "ds.md_exchange_rate_d" file =
      (match exchangeStep (normalize pdate df0) with
        | .error e => .error e
        | .ok d => .ok (d, [])) := by
  cases he : exchangeStep (normalize pdate df0) <;>
    simp [pipeline, hread, clean, he]

theorem pipeline_exchange_ok (pdate : PyVal → Option Nat)
    (file : String → ParseOutcome) (df0 df : Df) (bad : List BadRow)
    (hread : read_csv_safe file = .ok df0)
    (hp : pipeline pdate "ds.md_exchange_rate_d" file = .ok (df, bad)) :
    exchangeStep (normalize pdate df0) = .ok df ∧ bad = [] := by
  rw [pipeline_exchange pdate file df0 hread] at hp
  cases he : exchangeStep (normalize pdate df0) with
  | error e => rw [he] at hp; cases hp
  | ok d =>
    rw [he] at hp
    injection hp with hp
    injection hp with h1 h2
    exact ⟨congrArg Except.ok h1, h2.symm⟩

theorem pipeline_exchange_err (pdate : PyVal → Option Nat)
    (file : String → ParseOutcome) (df0 : Df)
    (hread : read_csv_safe file = .ok df0)
    (hmiss : ¬ ("data_actual_date" ∈ (normalize pdate df0).cols
        ∧ "currency_rk" ∈ (normalize pdate df0).cols)) :
    pipeline pdate "ds.md_exchange_rate_d" file =
      .error ("Не хватает колонок в ds.md_exchange_rate_d: "
        ++ joinCols (normalize pdate df0).cols) := by
  rw [pipeline_exchange pdate file df0 hread]
  rw [exchangeStep, if_neg hmiss]

/-- C4: loading the exchange-rate table fails in its entirety when the date
column or the currency-identifier column is absent from the normalized
dataset; otherwise rows sharing the same (date, currency id) pair are
deduplicated to one representative, the load succeeds with row count equal
to the deduplicated count, and the destination ends with exactly one row
for a key pair coming from the file. -/
theorem c4_exchange_rate (pdate : PyVal → Option Nat) (ok : VRow → Bool)
    (file : String → ParseOutcome) (dest : List VRow) (df0 : Df)
    (hread : read_csv_safe file = .ok df0)
    (hok : ∀ r, ok r = true) :
    ((¬ ("data_actual_date" ∈ (normalize pdate df0).cols
          ∧ "currency_rk" ∈ (normalize pdate df0).cols)) →
        (load_table pdate ok "ds.md_exchange_rate_d" file dest).status = "FAILURE"
        ∧ (load_table pdate ok "ds.md_exchange_rate_d" file dest).dest = dest
        ∧ (load_table pdate ok "ds.md_exchange_rate_d" file dest).rowCount = 0)
    ∧ (∀ df bad, pipeline pdate "ds.md_exchange_rate_d" file = .ok (df, bad) →
        rowsWf df.cols dest →
        (∀ v ∈ valuesOf df, v.length = df.cols.length) →
        (∀ k, df.rows.countP
            (fun p => decide (keyVals exchangePk df.cols p.2 = k)) ≤ 1)
        ∧ (load_table pdate ok "ds.md_exchange_rate_d" file dest).status = "SUCCESS"
        ∧ (load_table pdate ok "ds.md_exchange_rate_d" file dest).rowCount
            = df.rows.length
        ∧ (∀ k, hasK exchangePk df.cols (valuesOf df) k →
            countK exchangePk df.cols dest k = 0 →
            countK exchangePk df.cols
              (load_table pdate ok "ds.md_exchange_rate_d" file dest).dest k = 1)) := by
  constructor
  · intro hmiss
    have he := pipeline_exchange_err pdate file df0 hread hmiss
    simp [load_table, he]
  · intro df bad hp hwdest hwvals
    obtain ⟨hex, hbad⟩ := pipeline_exchange_ok pdate file df0 df bad hread hp
    obtain ⟨hdf, _, _⟩ := exchangeStep_ok _ _ hex
    have hq : queryFor "ds.md_exchange_rate_d" df.cols =
        Query.upsert df.cols exchangePk := rfl
    have hb := execBulk_all_ok ok (Query.upsert df.cols exchangePk) (valuesOf df) dest
      (fun r _ => hok r)
    have hne : ("ds.md_exchange_rate_d" : String) ≠ "ds.ft_posting_f" := by decide
    have hL : load_table pdate ok "ds.md_exchange_rate_d" file dest =
        ⟨(valuesOf df).foldl (applyStmt (.upsert df.cols exchangePk)) dest,
          "SUCCESS", df.rows.length, "", none, bad⟩ := by
      simp [load_table, hp, hq, hne, hb]
    refine ⟨?_, ?_, ?_, ?_⟩
    · intro k
      rw [hdf]
      exact dedupBy_countP_le _ k _
    · rw [hL]
    · rw [hL]
    · intro k hkv hdest0
      rw [hL]
      have hle : countK exchangePk df.cols
          ((valuesOf df).foldl (applyStmt (.upsert df.cols exchangePk)) dest) k ≤ 1 :=
        fold_countK_le exchangePk df.cols (valuesOf df) dest k hwdest hwvals
          (by rw [hdest0]; exact Nat.zero_le 1)
      obtain ⟨r, hr, hkr⟩ := hkv
      have hge : 1 ≤ countK exchangePk df.cols
          ((valuesOf df).foldl (applyStmt (.upsert df.cols exchangePk)) dest) k := by
        apply countK_pos_of_hasK
        rw [← hkr]
        exact fold_hasK_of_mem exchangePk df.cols (valuesOf df) dest r hwdest hwvals hr
      exact Nat.le_antisymm hle hge

/-- C4's file: two rows sharing the same (date, currency id) pair. -/
def c4File : String → ParseOutcome := fun enc =>
  if enc = "utf-8" then
    .ok ["DATA_ACTUAL_DATE", "CURRENCY_RK", "REDUCED_COURCE"]
      [[.pyStr "d", .npInt 1, .npFloat 5 1],
       [.pyStr "d", .npInt 1, .npFloat 6 1]]
  else .decodeError

/-- C4's schema-error file: the currency-identifier column is absent. -/
def c4FileMiss : String → ParseOutcome := fun enc =>
  if enc = "utf-8" then .ok ["DATA_ACTUAL_DATE", "X"] [[.pyStr "d", .npInt 1]]
  else .decodeError

/-- Day-first parser stub for the exchange-rate fixtures. -/
def c4Pdate : PyVal → Option Nat := fun v =>
  match v with
  | .pyStr _ => some 7
  | .timestamp d => some d
  | _ => none

theorem c4_exchange_rate_witness :
    (load_table c4Pdate okAll "ds.md_exchange_rate_d" c4File []).status = "SUCCESS"
    ∧ (load_table c4Pdate okAll "ds.md_exchange_rate_d" c4File []).rowCount = 1
    ∧ countK exchangePk ["data_actual_date", "currency_rk", "reduced_cource"]
        (load_table c4Pdate okAll "ds.md_exchange_rate_d" c4File []).dest
        [Value.date 7, Value.int 1] = 1
    ∧ (load_table c4Pdate okAll "ds.md_exchange_rate_d" c4FileMiss []).status
        = "FAILURE" := by
  have h := (c4_exchange_rate c4Pdate okAll c4File []
    ⟨["DATA_ACTUAL_DATE", "CURRENCY_RK", "REDUCED_COURCE"],
      enumFrom 0 [[.pyStr "d", .npInt 1, .npFloat 5 1],
        [.pyStr "d", .npInt 1, .npFloat 6 1]]⟩ rfl (fun r => rfl)).2
    ⟨["data_actual_date", "currency_rk", "reduced_cource"],
      [(0, [.timestamp 7, .npInt 1, .npFloat 5 1])]⟩ [] rfl (by decide) (by decide)
  have hm := (c4_exchange_rate c4Pdate okAll c4FileMiss []
    ⟨["DATA_ACTUAL_DATE", "X"], enumFrom 0 [[.pyStr "d", .npInt 1]]⟩ rfl
    (fun r => rfl)).1 (by decide)
  exact ⟨h.2.1, h.2.2.1, h.2.2.2 [Value.date 7, Value.int 1] (by decide) rfl, hm.1⟩

/-! ### Row-index bookkeeping -/

/-- At most one row stands under each pandas index label. -/
def FstUnique {α : Type} (l : List (Nat × α)) : Prop :=
  ∀ i x y, (i, x) ∈ l → (i, y) ∈ l → x = y

theorem enumFrom_mem_ge {α : Type} :
    ∀ (l : List α) (n i : Nat) (x : α), (i, x) ∈ enumFrom n l → n ≤ i := by
  intro l
  induction l with
  | nil => intro n i x h; simp [enumFrom] at h
  | cons y ys ih =>
    intro n i x h
    rcases List.mem_cons.mp h with heq | hm
    · injection heq with h1 _
      omega
    · have := ih (n + 1) i x hm
      omega

theorem enumFrom_fstUnique {α : Type} :
    ∀ (l : List α) (n : Nat), FstUnique (enumFrom n l) := by
  intro l
  induction l with
  | nil => intro n i x y h; simp [enumFrom] at h
  | cons z zs ih =>
    intro n i x y hx hy
    rcases List.mem_cons.mp hx with hex | hmx <;> rcases List.mem_cons.mp hy with hey | hmy
    · injection hex with _ e2
      injection hey with _ f2
      rw [e2, f2]
    · injection hex with e1 _
      have := enumFrom_mem_ge zs (n + 1) i y hmy
      omega
    · injection hey with f1 _
      have := enumFrom_mem_ge zs (n + 1) i x hmx
      omega
    · exact ih (n + 1) i x y hmx hmy

theorem fstUnique_sub {α : Type} (l l' : List (Nat × α))
    (hsub : ∀ p ∈ l', p ∈ l) (h : FstUnique l) : FstUnique l' :=
  fun i x y hx hy => h i x y (hsub _ hx) (hsub _ hy)

theorem fstUnique_mapSnd {α β : Type} (g : α → β) (l : List (Nat × α))
    (h : FstUnique l) : FstUnique (l.map (fun p => (p.1, g p.2))) := by
  intro i x y hx hy
  obtain ⟨⟨i1, a⟩, ha, heqa⟩ := List.mem_map.mp hx
  obtain ⟨⟨i2, b⟩, hb, heqb⟩ := List.mem_map.mp hy
  injection heqa with e1 e2
  injection heqb with f1 f2
  rw [← e2, ← f2, h i a b (e1 ▸ ha) (f1 ▸ hb)]

theorem read_ok_rows (file : String → ParseOutcome) :
    ∀ (l : List String) (df0 : Df), read_csv_aux file l = .ok df0 →
      ∃ raw, df0.rows = enumFrom 0 raw := by
  intro l
  induction l with
  | nil => intro df0 h; cases h
  | cons e rest ih =>
    intro df0 h
    cases hfe : file e with
    | ok cols rows =>
      rw [read_csv_aux, hfe] at h
      injection h with h
      exact ⟨rows, by rw [← h]⟩
    | decodeError =>
      rw [read_csv_aux, hfe] at h
      exact ih df0 h
    | raised msg =>
      rw [read_csv_aux, hfe] at h
      cases h

theorem read_fstUnique (file : String → ParseOutcome) (df0 : Df)
    (h : read_csv_safe file = .ok df0) : FstUnique df0.rows := by
  obtain ⟨raw, hr⟩ := read_ok_rows file encodings df0 h
  rw [hr]
  exact enumFrom_fstUnique raw 0

theorem normalize_fstUnique (pdate : PyVal → Option Nat) (df0 : Df)
    (h : FstUnique df0.rows) : FstUnique (normalize pdate df0).rows := by
  apply fstUnique_mapSnd
  apply fstUnique_sub _ _ (fun p hp => (List.mem_filter.mp hp).1)
  exact fstUnique_mapSnd _ _ h

/-! ### Date-drop lemmas -/

theorem parseDatesRow_get? (pdate : PyVal → Option Nat) :
    ∀ (cs : List String) (vs : List PyVal) (j : Nat) (c : String) (v : PyVal),
      cs.get? j = some c → vs.get? j = some v →
      (parseDatesRow pdate cs vs).get? j
        = some (if isDateCol c then parseCell pdate v else v) := by
  intro cs
  induction cs with
  | nil => intro vs j c v hc _; simp at hc
  | cons c0 cs ih =>
    intro vs j c v hc hv
    cases vs with
    | nil => simp at hv
    | cons v0 vs =>
      cases j with
      | zero =>
        have hc0 : c0 = c := by simpa using hc
        have hv0 : v0 = v := by simpa using hv
        subst hc0
        subst hv0
        rfl
      | succ j =>
        show ((if isDateCol c0 then parseCell pdate v0 else v0)
            :: parseDatesRow pdate cs vs).get? (j + 1) = _
        rw [List.get?_cons_succ]
        exact ih vs j c v (by simpa using hc) (by simpa using hv)

theorem dateOk_false :
    ∀ (cs : List String) (vs : List PyVal) (j : Nat) (c : String),
      cs.get? j = some c → isDateCol c = true → vs.get? j = some PyVal.na →
      dateOk cs vs = false := by
  intro cs
  induction cs with
  | nil => intro vs j c hc _ _; simp at hc
  | cons c0 cs ih =>
    intro vs j c hc hdc hv
    cases vs with
    | nil => simp at hv
    | cons v0 vs =>
      cases j with
      | zero =>
        have hc0 : c0 = c := by simpa using hc
        have hv0 : v0 = PyVal.na := by simpa using hv
        subst hc0
        subst hv0
        simp [dateOk, hdc]
      | succ j =>
        have := ih vs j c (by simpa using hc) hdc (by simpa using hv)
        simp [dateOk, this]

theorem normalize_excludes (pdate : PyVal → Option Nat) (df0 : Df)
    (i j : Nat) (r : List PyVal) (c : String) (v : PyVal)
    (hU : FstUnique df0.rows)
    (hmem : (i, r) ∈ df0.rows)
    (hc : (lowerCols df0).cols.get? j = some c)
    (hdc : isDateCol c = true)
    (hv : r.get? j = some v)
    (hpd : pdate v = none) :
    ∀ x, (i, x) ∉ (normalize pdate df0).rows := by
  intro x hx
  obtain ⟨⟨i2, y⟩, hy, heq2⟩ := List.mem_map.mp hx
  injection heq2 with e1 _
  have hyp := List.mem_filter.mp hy
  obtain ⟨⟨i3, r0⟩, hr0, heq3⟩ := List.mem_map.mp hyp.1
  injection heq3 with f1 f2
  have hr0' : (i, r0) ∈ df0.rows := by rw [← e1, ← f1]; exact hr0
  have hrr : r0 = r := hU i r0 r hr0' hmem
  have hna : (parseDatesRow pdate (lowerCols df0).cols r0).get? j = some PyVal.na := by
    rw [hrr, parseDatesRow_get? pdate (lowerCols df0).cols r j c v hc hv, hdc]
    simp [parseCell, hpd]
  have hfalse : dateOk (lowerCols df0).cols y = false := by
    rw [← f2]
    exact dateOk_false (lowerCols df0).cols _ j c hc hdc hna
  have htrue : dateOk (lowerCols df0).cols y = true := by simpa using hyp.2
  rw [hfalse] at htrue
  cases htrue

/-! ### Currency-validation lemmas -/

theorem currencyFold_fst_sub (cols : List String) :
    ∀ (rows : List (Nat × List PyVal)) (i : Nat) (x : List PyVal),
      (i, x) ∈ (currencyFold cols rows).1 → ∃ r, (i, r) ∈ rows := by
  intro rows
  induction rows with
  | nil => intro i x h; simp [currencyFold] at h
  | cons p rest ih =>
    obtain ⟨j, s⟩ := p
    intro i x h
    by_cases hc : (currencyRow cols s).2 = []
    · simp only [currencyFold, hc, if_true] at h
      rcases List.mem_cons.mp h with heq | hm
      · injection heq with e1 _
        exact ⟨s, by rw [← e1]; exact List.mem_cons_self _ _⟩
      · obtain ⟨r, hr⟩ := ih i x hm
        exact ⟨r, List.mem_cons_of_mem _ hr⟩
    · simp only [currencyFold, hc, if_false] at h
      obtain ⟨r, hr⟩ := ih i x h
      exact ⟨r, List.mem_cons_of_mem _ hr⟩

theorem currencyFold_bad (cols : List String) :
    ∀ (rows : List (Nat × List PyVal)) (i : Nat) (r : List PyVal),
      FstUnique rows → (i, r) ∈ rows → (currencyRow cols r).2 ≠ [] →
      log_bad_row "ds.md_currency_d" i r (currencyRow cols r).2
          ∈ (currencyFold cols rows).2
      ∧ ∀ x, (i, x) ∉ (currencyFold cols rows).1 := by
  intro rows
  induction rows with
  | nil => intro i r _ hmem _; simp at hmem
  | cons p rest ih =>
    obtain ⟨j, s⟩ := p
    intro i r hU hmem hbad
    have hUrest : FstUnique rest :=
      fstUnique_sub _ _ (fun q hq => List.mem_cons_of_mem _ hq) hU
    rcases List.mem_cons.mp hmem with heq | hmr
    · injection heq with e1 e2
      subst e1
      subst e2
      constructor
      · simp only [currencyFold, hbad, if_false]
        exact List.mem_cons_self _ _
      · intro x hx
        simp only [currencyFold, hbad, if_false] at hx
        obtain ⟨y, hy⟩ := currencyFold_fst_sub cols rest i x hx
        have hyr : y = r := hU i y r (List.mem_cons_of_mem _ hy) (List.mem_cons_self _ _)
        subst hyr
        exact ((ih i y hUrest hy hbad).2 x) hx
    · obtain ⟨ihb, ihk⟩ := ih i r hUrest hmr hbad
      by_cases hc : (currencyRow cols s).2 = []
      · constructor
        · simp only [currencyFold, hc, if_true]
          exact ihb
        · intro x hx
          simp only [currencyFold, hc, if_true] at hx
          rcases List.mem_cons.mp hx with heq2 | hm2
          · injection heq2 with e1 _
            subst e1
            have : s = r := hU i s r (List.mem_cons_self _ _) (List.mem_cons_of_mem _ hmr)
            rw [this] at hc
            exact hbad hc
          · exact ihk x hm2
      · constructor
        · simp only [currencyFold, hc, if_false]
          exact List.mem_cons_of_mem _ ihb
        · intro x hx
          simp only [currencyFold, hc, if_false] at hx
          exact ihk x hx

/-- The conditions of the currency-metadata row check, stated as the claim
states them: the numeric currency-code field is missing or non-numeric, or
the ISO character code does not reduce to exactly three alphabetic
characters after removing non-letters and upper-casing. -/
def badCurrencyRow (cols : List String) (r : List PyVal) : Bool :=
  (match rget cols r "currency_code" with
    | none => true
    | some code => pd_isnull code || !(isNumericPy code))
  || (match rget cols r "code_iso_char" with
      | none => true
      | some iso =>
        pd_isnull iso
          || !(decide ((pyUpper (filterAlpha (pyStrOf iso))).data.length = 3)))

theorem currencyRow_bad_iff (cols : List String) (r : List PyVal) :
    (currencyRow cols r).2 ≠ [] ↔ badCurrencyRow cols r = true := by
  unfold currencyRow badCurrencyRow codeReasons
  cases h1 : rget cols r "currency_code" <;>
    cases h2 : rget cols r "code_iso_char" <;>
      simp only [h1, h2] <;>
        first
        | (split_ifs <;> simp_all)
        | simp_all

theorem pipeline_currency (pdate : PyVal → Option Nat)
    (file : String → ParseOutcome) (df0 : Df)
    (hread : read_csv_safe file = .ok df0) :
    pipeline pdate "ds.md_currency_d" file =
      .ok (currencyStep (normalize pdate df0)) := by
  simp [pipeline, hread, clean]

theorem clean_exchange (pdate : PyVal → Option Nat) (df0 : Df) :
    clean pdate "ds.md_exchange_rate_d" df0 =
      (match exchangeStep (normalize pdate df0) with
        | .error e => .error e
        | .ok d => .ok (d, [])) := by
  cases he : exchangeStep (normalize pdate df0) <;> simp [clean, he]

theorem clean_currency (pdate : PyVal → Option Nat) (df0 : Df) :
    clean pdate "ds.md_currency_d" df0 = .ok (currencyStep (normalize pdate df0)) := by
  simp [clean]

theorem clean_other (pdate : PyVal → Option Nat) (tn : String) (df0 : Df)
    (h1 : tn ≠ "ds.md_exchange_rate_d") (h2 : tn ≠ "ds.md_currency_d") :
    clean pdate tn df0 = .ok (normalize pdate df0, []) := by
  simp [clean, h1, h2]

theorem clean_fst_sub (pdate : PyVal → Option Nat) (tn : String) (df0 df : Df)
    (bad : List BadRow) (h : clean pdate tn df0 = .ok (df, bad)) :
    ∀ i x, (i, x) ∈ df.rows → ∃ r0, (i, r0) ∈ (normalize pdate df0).rows := by
  by_cases h1 : tn = "ds.md_exchange_rate_d"
  · subst h1
    rw [clean_exchange] at h
    cases he : exchangeStep (normalize pdate df0) with
    | error e => rw [he] at h; cases h
    | ok d =>
      rw [he] at h
      injection h with h
      have hdf : d = df := congrArg Prod.fst h
      obtain ⟨hd, _, _⟩ := exchangeStep_ok _ _ he
      intro i x hx
      rw [← hdf, hd] at hx
      exact ⟨x, dedupByAux_subset _ _ _ _ hx⟩
  · by_cases h2 : tn = "ds.md_currency_d"
    · subst h2
      rw [clean_currency] at h
      injection h with h
      have hdf : (currencyStep (normalize pdate df0)).1 = df := congrArg Prod.fst h
      intro i x hx
      rw [← hdf] at hx
      exact currencyFold_fst_sub (normalize pdate df0).cols (normalize pdate df0).rows i x hx
    · rw [clean_other pdate tn df0 h1 h2] at h
      injection h with h
      have hdf : normalize pdate df0 = df := congrArg Prod.fst h
      intro i x hx
      rw [← hdf] at hx
      exact ⟨x, hx⟩

/-- C5: a currency-metadata row whose numeric code is missing or
non-numeric, or whose ISO character code does not reduce to exactly three
alphabetic letters, is recorded in the audit log with a nonempty reason
list and excluded from insertion, while the load of the remaining rows
proceeds and is still reported as SUCCESS. -/
theorem c5_currency_quarantine (pdate : PyVal → Option Nat) (ok : VRow → Bool)
    (file : String → ParseOutcome) (dest : List VRow) (df0 : Df) (i : Nat)
    (r : List PyVal)
    (hread : read_csv_safe file = .ok df0)
    (hmem : (i, r) ∈ (normalize pdate df0).rows)
    (hbad : badCurrencyRow (normalize pdate df0).cols r = true) :
    log_bad_row "ds.md_currency_d" i r (currencyRow (normalize pdate df0).cols r).2
        ∈ (load_table pdate ok "ds.md_currency_d" file dest).badRows
    ∧ (currencyRow (normalize pdate df0).cols r).2 ≠ []
    ∧ (∀ df bad, pipeline pdate "ds.md_currency_d" file = .ok (df, bad) →
        ∀ x, (i, x) ∉ df.rows)
    ∧ (load_table pdate ok "ds.md_currency_d" file dest).status = "SUCCESS" := by
  have hU : FstUnique (normalize pdate df0).rows :=
    normalize_fstUnique pdate df0 (read_fstUnique file df0 hread)
  have hne : (currencyRow (normalize pdate df0).cols r).2 ≠ [] :=
    (currencyRow_bad_iff _ _).mpr hbad
  have hmain := currencyFold_bad (normalize pdate df0).cols (normalize pdate df0).rows
    i r hU hmem hne
  have hpc := pipeline_currency pdate file df0 hread
  have hshape : (load_table pdate ok "ds.md_currency_d" file dest).badRows
      = (currencyStep (normalize pdate df0)).2
      ∧ (load_table pdate ok "ds.md_currency_d" file dest).status = "SUCCESS" := by
    cases hb : execBulk ok (queryFor "ds.md_currency_d"
        (currencyStep (normalize pdate df0)).1.cols)
        dest (valuesOf (currencyStep (normalize pdate df0)).1) with
    | ok d2 => simp [load_table, hpc, hb]
    | error e => simp [load_table, hpc, hb]
  refine ⟨?_, hne, ?_, hshape.2⟩
  · rw [hshape.1]
    exact hmain.1
  · intro df bad hp x
    rw [hpc] at hp
    injection hp with hp
    have hdf : (currencyStep (normalize pdate df0)).1 = df := congrArg Prod.fst hp
    rw [← hdf]
    exact hmain.2 x

/-- C5's file: the first row has a non-numeric code and a four-letter ISO
string; the second row is valid. -/
def c5File : String → ParseOutcome := fun enc =>
  if enc = "utf-8" then
    .ok ["CURRENCY_CODE", "CODE_ISO_CHAR"]
      [[.pyStr "x", .pyStr "USDD"], [.npInt 840, .pyStr "usd"]]
  else .decodeError

theorem c5_currency_quarantine_witness :
    log_bad_row "ds.md_currency_d" 0 [.pyStr "x", .pyStr "USDD"]
        (currencyRow ["currency_code", "code_iso_char"]
          [.pyStr "x", .pyStr "USDD"]).2
      ∈ (load_table pdNone okAll "ds.md_currency_d" c5File []).badRows
    ∧ (load_table pdNone okAll "ds.md_currency_d" c5File []).status = "SUCCESS"
    ∧ ¬((0, [PyVal.npInt 840, PyVal.pyStr "USD"]) ∈
        (⟨["currency_code", "code_iso_char"],
          [(1, [PyVal.npInt 840, PyVal.pyStr "USD"])]⟩ : Df).rows) := by
  have h := c5_currency_quarantine pdNone okAll c5File []
    ⟨["CURRENCY_CODE", "CODE_ISO_CHAR"],
      enumFrom 0 [[.pyStr "x", .pyStr "USDD"], [.npInt 840, .pyStr "usd"]]⟩
    0 [.pyStr "x", .pyStr "USDD"] rfl (by decide) (by decide)
  exact ⟨h.1, h.2.2.2,
    h.2.2.1 ⟨["currency_code", "code_iso_char"],
      [(1, [PyVal.npInt 840, PyVal.pyStr "USD"])]⟩
      [log_bad_row "ds.md_currency_d" 0 [.pyStr "x", .pyStr "USDD"]
        (currencyRow ["currency_code", "code_iso_char"]
          [.pyStr "x", .pyStr "USDD"]).2]
      (by rfl) [PyVal.npInt 840, PyVal.pyStr "USD"]⟩

/-- C6: after normalization, a row holding an unparsable value in any
column whose name contains "date" is dropped — it is absent from the final
dataset of any table's pipeline, and the SUCCESS row count counts only the
remaining rows. -/
theorem c6_unparsable_date_dropped (pdate : PyVal → Option Nat) (ok : VRow → Bool)
    (tn : String) (file : String → ParseOutcome) (dest : List VRow) (df0 : Df)
    (i j : Nat) (r : List PyVal) (c : String) (v : PyVal)
    (hread : read_csv_safe file = .ok df0)
    (hmem : (i, r) ∈ df0.rows)
    (hc : (lowerCols df0).cols.get? j = some c)
    (hdc : isDateCol c = true)
    (hv : r.get? j = some v)
    (hpd : pdate v = none) :
    (∀ x, (i, x) ∉ (normalize pdate df0).rows)
    ∧ (∀ df bad, pipeline pdate tn file = .ok (df, bad) →
        (∀ x, (i, x) ∉ df.rows)
        ∧ (load_table pdate ok tn file dest).rowCount = df.rows.length) := by
  have hU : FstUnique df0.rows := read_fstUnique file df0 hread
  have hexc := normalize_excludes pdate df0 i j r c v hU hmem hc hdc hv hpd
  refine ⟨hexc, ?_⟩
  intro df bad hp
  have hclean : clean pdate tn df0 = .ok (df, bad) := by
    simp only [pipeline, hread] at hp
    exact hp
  constructor
  · intro x hx
    obtain ⟨r0, hr0⟩ := clean_fst_sub pdate tn df0 df bad hclean i x hx
    exact hexc r0 hr0
  · cases hb : execBulk ok (queryFor tn df.cols)
        (if tn = "ds.ft_posting_f" then [] else dest) (valuesOf df) with
    | ok d2 => simp [load_table, hp, hb]
    | error e => simp [load_table, hp, hb]

/-- C6's file: a date column in which the first row's value does not parse. -/
def c6File : String → ParseOutcome := fun enc =>
  if enc = "utf-8" then .ok ["DATE"] [[.pyStr "bad"], [.pyStr "good"]]
  else .decodeError

/-- Parser stub for `c6File`: only "good" denotes a date. -/
def c6Pdate : PyVal → Option Nat := fun v =>
  match v with
  | .pyStr s => if s = "good" then some 1 else none
  | _ => none

theorem c6_unparsable_date_dropped_witness :
    ¬((0, [PyVal.timestamp 1]) ∈
        (normalize c6Pdate ⟨["DATE"], enumFrom 0 [[.pyStr "bad"], [.pyStr "good"]]⟩).rows)
    ∧ (load_table c6Pdate okAll "t" c6File []).rowCount = 1 := by
  have h := c6_unparsable_date_dropped c6Pdate okAll "t" c6File []
    ⟨["DATE"], enumFrom 0 [[.pyStr "bad"], [.pyStr "good"]]⟩
    0 0 [.pyStr "bad"] "date" (.pyStr "bad") rfl (by decide) rfl rfl rfl rfl
  exact ⟨h.1 [PyVal.timestamp 1],
    (h.2 ⟨["date"], [(1, [PyVal.timestamp 1])]⟩ [] (by rfl)).2⟩

end Etl
